import Mathlib

/-!
Verification development for the Reviewer-Recommender-App repository.

The repository's core pipeline is embedded shallowly:

* `src/parse_pdf.py` — `clean_full_text` and the pure segmentation part of
  `extract_multivector_text` are modelled over `List Char` (Python `str`),
  with Python's `str.lower`, `str.rfind`, `str.split`, `" ".join` and the
  two `re.search` calls modelled explicitly.  The PyMuPDF page-extraction
  step is an external provider; its outcome is modelled as an
  `Option (List Char)` input (`none` = the provider raised, which the code
  catches).
* `src/embed.py` — `build_multivector_database`'s per-paper record
  construction, with the SentenceTransformer encoder abstracted as an
  arbitrary function `embed : List Char → List ℚ` and Python truthiness of
  the extracted texts modelled explicitly.
* `src/similarity.py` — `find_similar_authors`, with real-number scores
  modelled by `ℚ`, sklearn's `cosine_similarity` modelled as
  dot-product over norms where a zero norm is replaced by 1 (sklearn's
  `normalize` semantics) and the square root abstracted as a parameter
  `sq : ℚ → ℚ` (no claim depends on its values), pandas `groupby`
  (keys deduplicated and sorted ascending), `sort_values` (a sort by the
  `max` column, descending) and `DataFrame.head` (first `n` rows for
  `n ≥ 0`, all but the last `|n|` rows for `n < 0`) modelled explicitly.
-/

/-- Maximum element of a list, `none` on the empty list. -/
def listMax? {α : Type} [LinearOrder α] : List α → Option α
  | [] => none
  | x :: xs =>
    match listMax? xs with
    | none => some x
    | some m => some (max x m)

/-- Python `str` whitespace test restricted to the ASCII whitespace
characters (` `, `\t`, `\n`, `\r`, `\x0b`, `\x0c`), the alphabet relevant
to this development. -/
def isSpaceChar (c : Char) : Bool :=
  c == ' ' || c == '\t' || c == '\n' || c == '\r' || c == '\x0b' || c == '\x0c'

/-- Accumulator-based worker for `words`: splits a character list into its
maximal runs of non-whitespace characters. -/
def wordsGo : List Char → List Char → List (List Char)
  | [], cur => if cur.isEmpty then [] else [cur.reverse]
  | c :: rest, cur =>
    if isSpaceChar c then
      if cur.isEmpty then wordsGo rest [] else cur.reverse :: wordsGo rest []
    else wordsGo rest (c :: cur)

/-- Python `text.split()`: the list of maximal whitespace-free runs. -/
def words (l : List Char) : List (List Char) := wordsGo l []

/-- Python `len(text.split())`: the number of whitespace-delimited tokens. -/
def countTokens (l : List Char) : Nat := (words l).length

/-- Python `" ".join(ws)`. -/
def joinWords (ws : List (List Char)) : List Char := List.intercalate [' '] ws

/-- The pattern `pat` occurs in `text` starting at index `i`. -/
def occursB (pat text : List Char) (i : Nat) : Bool := pat.isPrefixOf (text.drop i)

/-- Python `text.rfind(pat)`: the largest index at which `pat` occurs in
`text`, or `-1` when it does not occur. -/
def rfind (pat text : List Char) : Int :=
  match listMax? ((List.range (text.length + 1)).filter (occursB pat text)) with
  | some j => (j : Int)
  | none => -1

/-- `clean_full_text` from `src/parse_pdf.py`: lower-case the text, take the
larger of the last positions of `"\nreferences"` and `"\nbibliography"`;
if one was found, cut the text off there, otherwise return it whole. -/
def clean_full_text (text : List Char) : List Char :=
  let text_lower := text.map Char.toLower
  let ref_pos := rfind ("\nreferences".data) text_lower
  let bib_pos := rfind ("\nbibliography".data) text_lower
  let split_pos := max ref_pos bib_pos
  if split_pos ≠ -1 then text.take split_pos.toNat else text

/-- The negative-lookbehind `(?<!in\s)` of the regex `(?<!in\s)abstract` in
`extract_multivector_text`: position `i` is immediately preceded by the
three characters `i`, `n`, whitespace. -/
def precededByIn (l : List Char) (i : Nat) : Bool :=
  decide (3 ≤ i) &&
    (match l.drop (i - 3) with
     | a :: b :: c :: _ => a == 'i' && b == 'n' && isSpaceChar c
     | _ => false)

/-- The regex `(?<!in\s)abstract` matches at position `i` of the
lower-cased text `l`. -/
def abstractAt (l : List Char) (i : Nat) : Bool :=
  ("abstract".data).isPrefixOf (l.drop i) && !(precededByIn l i)

/-- Some alternative of an alternation regex (given as a list of literal
patterns) matches at position `i` of `l`. -/
def matchesAny (pats : List (List Char)) (l : List Char) (i : Nat) : Bool :=
  pats.any (fun p => p.isPrefixOf (l.drop i))

/-- Leftmost index `≤ n` satisfying `p`, as found by a left-to-right regex
scan (`re.search`); `none` when no index matches. -/
def findFirst (p : Nat → Bool) (n : Nat) : Option Nat := (List.range (n + 1)).find? p

/-- `re.search(r'(?<!in\s)abstract', l).start()` on a lower-cased text. -/
def searchAbstract (l : List Char) : Option Nat := findFirst (abstractAt l) l.length

/-- `re.search` of an alternation of literal patterns: start position of the
leftmost match. -/
def searchPats (pats : List (List Char)) (l : List Char) : Option Nat :=
  findFirst (matchesAny pats l) l.length

/-- The `best_text` string assembled by `extract_multivector_text` in
`src/parse_pdf.py` before the final 100-token check: the abstract
sub-excerpt (from the first `(?<!in\s)abstract` match to the first later
`introduction|keywords|\n1.` match, else the first 500 tokens) followed by
a newline and the introduction sub-excerpt (from the first `introduction`
match to the first later `methods|related work|background|\n2.` match,
else the first 1000 tokens).  Searches run on the lower-cased text while
slices are taken from the original, exactly as in the source. -/
def best_text_candidate (ft : List Char) : List Char :=
  let lower := ft.map Char.toLower
  let part1 : List Char :=
    match searchAbstract lower with
    | none => []
    | some i =>
      match searchPats ["introduction".data, "keywords".data, "\n1.".data] (lower.drop i) with
      | some j => (ft.drop i).take j
      | none => joinWords ((words (ft.drop i)).take 500)
  let part2 : List Char :=
    match searchPats ["introduction".data] lower with
    | none => []
    | some i =>
      match searchPats
          ["methods".data, "related work".data, "background".data, "\n2.".data]
          (lower.drop i) with
      | some j => '\n' :: ((ft.drop i).take j)
      | none => '\n' :: joinWords ((words (ft.drop i)).take 1000)
  part1 ++ part2

/-- The final `best_text` of `extract_multivector_text`: the assembled
candidate, or `None` when it has fewer than 100 whitespace-delimited
tokens. -/
def extract_best_text (ft : List Char) : Option (List Char) :=
  let c := best_text_candidate ft
  if countTokens c < 100 then none else some c

/-- `extract_multivector_text` from `src/parse_pdf.py`, as a function of
the text-extraction provider's outcome (`none` = the provider raised and
the `except` branch returned `{'best_text': None, 'full_text': None}`).
On whitespace-only text both components are `None`; otherwise `best_text`
is the thresholded focused excerpt and `full_text` is the cleaned full
text (which, as in the source, is always a present string, possibly
empty). -/
def extract_multivector_text (raw : Option (List Char)) :
    Option (List Char) × Option (List Char) :=
  match raw with
  | none => (none, none)
  | some ft =>
    if ft.all isSpaceChar then (none, none)
    else (extract_best_text ft, some (clean_full_text ft))

/-- PaperRecord, the dictionary appended to `database_records` by
`build_multivector_database` in `src/embed.py`. -/
structure DBRecord where
  author : String
  paper : String
  best_text_embedding : Option (List ℚ)
  full_text_embedding : Option (List ℚ)
deriving DecidableEq

/-- One input paper for the Corpus Builder: the author folder name, the
derived paper name, and the outcome of text extraction on its file
(`none` when the PDF provider raised). -/
structure PaperSource where
  author : String
  paper : String
  raw : Option (List Char)
deriving DecidableEq

/-- Python truthiness of an optional string (`if texts['best_text']:`):
`None` and the empty string are falsy. -/
def truthy : Option (List Char) → Option (List Char)
  | none => none
  | some t => if t.isEmpty then none else some t

/-- The loop body of `build_multivector_database` in `src/embed.py` for one
paper: extract both text types, embed each truthy one, and build the
record.  `embed` abstracts `model.encode`. -/
def processPaper (embed : List Char → List ℚ) (p : PaperSource) : DBRecord :=
  let texts := extract_multivector_text p.raw
  { author := p.author
    paper := p.paper
    best_text_embedding := (truthy texts.1).map embed
    full_text_embedding := (truthy texts.2).map embed }

/-- `build_multivector_database` from `src/embed.py`: one record is
appended per enumerated paper, in enumeration order. -/
def build_multivector_database (embed : List Char → List ℚ) (papers : List PaperSource) :
    List DBRecord :=
  papers.map (processPaper embed)

/-- Dot product of two vectors (`ℚ` stands for the reals). -/
def dot (u v : List ℚ) : ℚ := (List.zipWith (· * ·) u v).sum

/-- Squared Euclidean norm. -/
def normSq (v : List ℚ) : ℚ := dot v v

/-- Row norm as used by sklearn's `normalize`: the square root of the
squared norm, with a zero norm replaced by `1` so that zero rows stay
zero instead of producing NaN.  `sq` abstracts the numeric library's
square root; no claim below depends on its values. -/
def safeNorm (sq : ℚ → ℚ) (v : List ℚ) : ℚ :=
  if normSq v = 0 then 1 else sq (normSq v)

/-- sklearn `cosine_similarity` of two vectors, under the `safeNorm`
zero-row convention. -/
def cosineSim (sq : ℚ → ℚ) (u v : List ℚ) : ℚ :=
  dot u v / (safeNorm sq u * safeNorm sq v)

/-- Row of the `db_best_text_matrix` for one record: the stored embedding,
or a zero vector of the model dimension when it is `None`
(`np.zeros(embedding_dim)`). -/
def rowBest (dim : Nat) (r : DBRecord) : List ℚ :=
  match r.best_text_embedding with
  | some v => v
  | none => List.replicate dim 0

/-- Row of the `db_full_text_matrix` for one record. -/
def rowFull (dim : Nat) (r : DBRecord) : List ℚ :=
  match r.full_text_embedding with
  | some v => v
  | none => List.replicate dim 0

/-- `score_A` of `find_similar_authors`: cosine similarity of the focused
query vector against every row of the best-text matrix.  This is the
value computed on the non-raising path only; on an empty database the
sklearn call raises instead of producing a list — that error path is
modelled by `scoreA_checked` below. -/
def scoreA (sq : ℚ → ℚ) (query_best_vector : List ℚ) (dim : Nat) (database : List DBRecord) :
    List ℚ :=
  database.map (fun r => cosineSim sq query_best_vector (rowBest dim r))

/-- `score_B` of `find_similar_authors`: cosine similarity of the full-text
query vector against every row of the full-text matrix (non-raising path
only, as for `scoreA`; see `scoreB_checked`). -/
def scoreB (sq : ℚ → ℚ) (query_full_vector : List ℚ) (dim : Nat) (database : List DBRecord) :
    List ℚ :=
  database.map (fun r => cosineSim sq query_full_vector (rowFull dim r))

/-- `final_scores = np.maximum(score_A, score_B)`. -/
def finalScores (sq : ℚ → ℚ) (query_best_vector query_full_vector : List ℚ) (dim : Nat)
    (database : List DBRecord) : List ℚ :=
  List.zipWith max (scoreA sq query_best_vector dim database)
    (scoreB sq query_full_vector dim database)

/-- The `(author, score)` columns of the per-paper DataFrame. -/
def scoreRows (sq : ℚ → ℚ) (query_best_vector query_full_vector : List ℚ) (dim : Nat)
    (database : List DBRecord) : List (String × ℚ) :=
  List.zip (database.map DBRecord.author)
    (finalScores sq query_best_vector query_full_vector dim database)

/-- The fused scores of one author's group under `groupby('author')`. -/
def groupScores (a : String) (rows : List (String × ℚ)) : List ℚ :=
  (rows.filter (fun x => x.1 == a)).map (fun x => x.2)

/-- Distinct elements of a list (first-occurrence-free representative set;
the order is irrelevant because group keys are sorted afterwards). -/
def dedupAuthors : List String → List String
  | [] => []
  | a :: rest =>
    let r := dedupAuthors rest
    if a ∈ r then r else a :: r

/-- Insertion into a `≤`-ascending list of strings. -/
def insertAsc (a : String) : List String → List String
  | [] => [a]
  | b :: rest => if a ≤ b then a :: b :: rest else b :: insertAsc a rest

/-- Ascending sort of the group keys, as pandas `groupby` produces them. -/
def sortAsc : List String → List String
  | [] => []
  | a :: rest => insertAsc a (sortAsc rest)

/-- The group keys of `df.groupby('author')`: distinct authors in
ascending order. -/
def distinctAuthors (database : List DBRecord) : List String :=
  sortAsc (dedupAuthors (database.map DBRecord.author))

/-- One row of the merged `author_scores` table of
`find_similar_authors`. -/
structure AuthorScore where
  author : String
  mean : ℚ
  count : Nat
  max : ℚ
deriving DecidableEq

/-- Maximum of a score list, `0` on the empty list (the empty case is never
reached for a genuine group). -/
def listMaxD (l : List ℚ) : ℚ := (listMax? l).getD 0

/-- The aggregated row for one author: `mean`, `count` and `max` of that
author's fused scores, as produced by the two `groupby` aggregations and
their merge on `author`. -/
def authorRow (rows : List (String × ℚ)) (a : String) : AuthorScore :=
  let s := groupScores a rows
  { author := a
    mean := s.sum / (s.length : ℚ)
    count := s.length
    max := listMaxD s }

/-- The merged per-author table before sorting, one row per distinct
author in group-key order. -/
def authorTable (sq : ℚ → ℚ) (query_best_vector query_full_vector : List ℚ) (dim : Nat)
    (database : List DBRecord) : List AuthorScore :=
  (distinctAuthors database).map
    (authorRow (scoreRows sq query_best_vector query_full_vector dim database))

/-- Insertion into a list that is descending in the `max` column. -/
def insertByMaxDesc (r : AuthorScore) : List AuthorScore → List AuthorScore
  | [] => [r]
  | s :: rest => if r.max ≤ s.max then s :: insertByMaxDesc r rest else r :: s :: rest

/-- `sort_values(by='max', ascending=False)`: a sort of the author table
descending by the `max` column. -/
def sortByMaxDesc : List AuthorScore → List AuthorScore
  | [] => []
  | r :: rest => insertByMaxDesc r (sortByMaxDesc rest)

/-- The sorted author table of `find_similar_authors`. -/
def sortedTable (sq : ℚ → ℚ) (query_best_vector query_full_vector : List ℚ) (dim : Nat)
    (database : List DBRecord) : List AuthorScore :=
  sortByMaxDesc (authorTable sq query_best_vector query_full_vector dim database)

/-- pandas `DataFrame.head(n)`: the first `n` rows for `n ≥ 0`, and all
rows except the last `|n|` for `n < 0`. -/
def dfHead {α : Type} (n : Int) (l : List α) : List α :=
  if 0 ≤ n then l.take n.toNat else l.take (l.length - (-n).toNat)

/-- The table computed by `find_similar_authors` from `src/similarity.py`
on its non-raising path (a non-empty database).  `sq` abstracts the
numeric square root inside `cosine_similarity`; `dim` stands for
`st_model.get_sentence_embedding_dimension()`; `top_k` is an `Int`
because the CLI parses an arbitrary integer.  On an empty database the
Python function does not reach its return: sklearn raises first — that
path is modelled by `find_similar_authors_checked` below. -/
def find_similar_authors (sq : ℚ → ℚ) (query_best_vector query_full_vector : List ℚ)
    (dim : Nat) (database : List DBRecord) (top_k : Int) : List AuthorScore :=
  dfHead top_k (sortedTable sq query_best_vector query_full_vector dim database)

/-- sklearn `cosine_similarity([q], M).flatten()` with its error path: for
an empty database the matrix is `np.array([])`, a 1-D empty array that
`check_array` rejects with `ValueError` (`none` here); otherwise one
cosine score per row. -/
def cosine_similarity_rows (sq : ℚ → ℚ) (q : List ℚ) (M : List (List ℚ)) :
    Option (List ℚ) :=
  if M.isEmpty then none else some (M.map (cosineSim sq q))

/-- `score_A` with sklearn's error behaviour: `none` means the
`cosine_similarity` call raised. -/
def scoreA_checked (sq : ℚ → ℚ) (query_best_vector : List ℚ) (dim : Nat)
    (database : List DBRecord) : Option (List ℚ) :=
  cosine_similarity_rows sq query_best_vector (database.map (rowBest dim))

/-- `score_B` with sklearn's error behaviour. -/
def scoreB_checked (sq : ℚ → ℚ) (query_full_vector : List ℚ) (dim : Nat)
    (database : List DBRecord) : Option (List ℚ) :=
  cosine_similarity_rows sq query_full_vector (database.map (rowFull dim))

/-- `find_similar_authors` with the `ValueError` path represented:
`none` means the Python function raises (the uncaught sklearn error
propagates to the caller), `some t` means it returns the table `t`.
The remaining steps (element-wise maximum, the per-paper DataFrame,
the `groupby` aggregation and merge, the descending sort on `max`, and
`head(top_k)`) are as in the source. -/
def find_similar_authors_checked (sq : ℚ → ℚ)
    (query_best_vector query_full_vector : List ℚ) (dim : Nat)
    (database : List DBRecord) (top_k : Int) : Option (List AuthorScore) :=
  match scoreA_checked sq query_best_vector dim database,
      scoreB_checked sq query_full_vector dim database with
  | some score_A, some score_B =>
    some (dfHead top_k (sortByMaxDesc ((distinctAuthors database).map
      (authorRow (List.zip (database.map DBRecord.author)
        (List.zipWith max score_A score_B))))))
  | _, _ => none

/-! Concrete example inputs used by counterexamples and witnesses. -/

/-- A line-initial references or bibliography heading occurs at position
`i` of the lower-cased text (position `i` holds the anchoring newline,
the heading word starts at `i + 1`). -/
def headingAt (text : List Char) (i : Nat) : Bool :=
  occursB ("\nreferences".data) (text.map Char.toLower) i ||
  occursB ("\nbibliography".data) (text.map Char.toLower) i

def exDB4 : List DBRecord :=
  [{ author := "a", paper := "p", best_text_embedding := none, full_text_embedding := none }]

def exDB9 : List DBRecord :=
  [{ author := "a", paper := "p", best_text_embedding := none,
     full_text_embedding := some [1] }]

def exDB2 : List DBRecord :=
  [{ author := "alice", paper := "p1", best_text_embedding := none,
     full_text_embedding := none },
   { author := "bob", paper := "p2", best_text_embedding := none,
     full_text_embedding := none }]

/-- A raw text that is far from whitespace-only but begins with a
line-initial references heading: `clean_full_text` truncates it at
position 0, leaving the empty string, which Python truthiness then treats
as absent. -/
def badRaw : List Char := "\nreferences\n[1] some cited paper".data

def exDB10 : List DBRecord :=
  [{ author := "carol", paper := "p", best_text_embedding := none,
     full_text_embedding := none }]

def wText : List Char := "intro text\nreferences\n[1] x".data

/-! Helper lemmas. -/

theorem listMax?_eq_none_iff {α : Type} [LinearOrder α] (l : List α) :
    listMax? l = none ↔ l = [] := by
  cases l with
  | nil => simp [listMax?]
  | cons x xs =>
    simp only [listMax?]
    cases listMax? xs <;> simp

theorem listMax?_mem {α : Type} [LinearOrder α] (l : List α) (m : α)
    (h : listMax? l = some m) : m ∈ l := by
  induction l generalizing m with
  | nil => simp [listMax?] at h
  | cons x xs ih =>
    simp only [listMax?] at h
    cases hx : listMax? xs with
    | none => rw [hx] at h; simp at h; simp [h]
    | some m' =>
      rw [hx] at h
      simp at h
      rcases max_choice x m' with hc | hc
      · rw [hc] at h; simp [h.symm]
      · rw [hc] at h; exact List.mem_cons_of_mem x (h ▸ ih m' hx)

theorem listMax?_is_max {α : Type} [LinearOrder α] (l : List α) (m : α)
    (h : listMax? l = some m) : ∀ x ∈ l, x ≤ m := by
  induction l generalizing m with
  | nil => simp
  | cons y ys ih =>
    simp only [listMax?] at h
    intro x hx
    cases hy : listMax? ys with
    | none =>
      rw [hy] at h; simp at h
      rw [(listMax?_eq_none_iff ys).mp hy] at hx
      simp at hx
      simp [hx, h]
    | some m' =>
      rw [hy] at h; simp at h
      rcases List.mem_cons.mp hx with rfl | hxs
      · exact h ▸ le_max_left x m'
      · exact le_trans (ih m' hy x hxs) (h ▸ le_max_right y m')

theorem zipWith_map_same {α β γ δ : Type} (f : β → γ → δ) (g : α → β) (h : α → γ)
    (l : List α) : List.zipWith f (l.map g) (l.map h) = l.map (fun x => f (g x) (h x)) := by
  induction l with
  | nil => rfl
  | cons x xs ih => simp [ih]

theorem zip_map_same {α β γ : Type} (g : α → β) (h : α → γ) (l : List α) :
    List.zip (l.map g) (l.map h) = l.map (fun x => (g x, h x)) := by
  induction l with
  | nil => rfl
  | cons x xs ih => simp [List.zip, ih]

theorem dot_replicate_zero (u : List ℚ) (d : Nat) : dot u (List.replicate d 0) = 0 := by
  induction u generalizing d with
  | nil => simp [dot]
  | cons x xs ih =>
    cases d with
    | zero => simp [dot]
    | succ d' =>
      simp only [List.replicate_succ, dot, List.zipWith_cons_cons, List.sum_cons, mul_zero,
        zero_add]
      exact ih d'

theorem cosineSim_replicate_zero (sq : ℚ → ℚ) (u : List ℚ) (d : Nat) :
    cosineSim sq u (List.replicate d 0) = 0 := by
  simp [cosineSim, dot_replicate_zero]

/-- The fused score list is a pointwise map over the database. -/
theorem finalScores_eq_map (sq : ℚ → ℚ) (qb qf : List ℚ) (dim : Nat) (db : List DBRecord) :
    finalScores sq qb qf dim db =
      db.map (fun r => max (cosineSim sq qb (rowBest dim r)) (cosineSim sq qf (rowFull dim r))) := by
  simp [finalScores, scoreA, scoreB, zipWith_map_same]

/-- The per-paper rows are a pointwise map over the database. -/
theorem scoreRows_eq_map (sq : ℚ → ℚ) (qb qf : List ℚ) (dim : Nat) (db : List DBRecord) :
    scoreRows sq qb qf dim db =
      db.map (fun r =>
        (r.author, max (cosineSim sq qb (rowBest dim r)) (cosineSim sq qf (rowFull dim r)))) := by
  simp [scoreRows, finalScores_eq_map, zip_map_same]

/-! Claim C1 (code bug).  The spec demands that an empty database yield an
empty ranked list, not an error, but the program never reaches its
return: with `database = []` the matrix handed to sklearn is the 1-D
empty `np.array([])`, which `check_array` rejects, so
`cosine_similarity` raises `ValueError` and the exception propagates out
of `find_similar_authors`. -/

/-- C1, evaluated at the failing input: on the empty database the
similarity engine raises (result `none`) for every pair of query
vectors, every model dimension and every `top_k`, instead of returning
the empty ranked list the claim demands. -/
theorem claim_c1_error_on_empty (sq : ℚ → ℚ) (qb qf : List ℚ) (dim : Nat) (k : Int) :
    find_similar_authors_checked sq qb qf dim [] k = none := rfl

/-! Claim C4. -/

/-- C4: the fused per-paper score is exactly the element-wise maximum of
the channel-A and channel-B cosine-similarity scores, hence at least each
individual channel score. -/
theorem claim_c4_fused_max (sq : ℚ → ℚ) (qb qf : List ℚ) (dim : Nat) (db : List DBRecord)
    (i : Nat) (a b : ℚ) (ha : (scoreA sq qb dim db)[i]? = some a)
    (hb : (scoreB sq qf dim db)[i]? = some b) :
    (finalScores sq qb qf dim db)[i]? = some (max a b) ∧ a ≤ max a b ∧ b ≤ max a b := by
  refine ⟨?_, le_max_left a b, le_max_right a b⟩
  rw [scoreA, List.getElem?_map] at ha
  rw [scoreB, List.getElem?_map] at hb
  rw [finalScores_eq_map, List.getElem?_map]
  cases hdb : db[i]? with
  | none => rw [hdb] at ha; simp at ha
  | some r =>
    rw [hdb] at ha hb
    simp at ha hb
    simp [ha, hb]

/-- Witness for C4 at a concrete one-record database. -/
theorem claim_c4_witness :
    (finalScores (fun x => x) [1] [1] 1 exDB4)[0]? =
      some (max (cosineSim (fun x => x) [1] (List.replicate 1 0))
        (cosineSim (fun x => x) [1] (List.replicate 1 0))) ∧
      cosineSim (fun x => x) [1] (List.replicate 1 0) ≤
        max (cosineSim (fun x => x) [1] (List.replicate 1 0))
          (cosineSim (fun x => x) [1] (List.replicate 1 0)) ∧
      cosineSim (fun x => x) [1] (List.replicate 1 0) ≤
        max (cosineSim (fun x => x) [1] (List.replicate 1 0))
          (cosineSim (fun x => x) [1] (List.replicate 1 0)) :=
  claim_c4_fused_max (fun x => x) [1] [1] 1 exDB4 0 _ _ rfl rfl

/-! Claim C9. -/

/-- C9: a record whose focused (best-text) embedding is absent gets the
zero vector substituted, and its channel-A score is exactly `0` — the
cosine similarity against the zero vector is `0` (not NaN) for every
query vector, zero or not. -/
theorem claim_c9_zero_vector_channelA (sq : ℚ → ℚ) (qb : List ℚ) (dim : Nat)
    (db : List DBRecord) (i : Nat) (r : DBRecord) (hr : db[i]? = some r)
    (habs : r.best_text_embedding = none) :
    (scoreA sq qb dim db)[i]? = some 0 ∧ cosineSim sq qb (List.replicate dim 0) = 0 := by
  refine ⟨?_, cosineSim_replicate_zero sq qb dim⟩
  rw [scoreA, List.getElem?_map, hr]
  simp [rowBest, habs, cosineSim_replicate_zero]

/-- Witness for C9 at a concrete record with an absent focused embedding. -/
theorem claim_c9_witness :
    (scoreA (fun x => x) [1] 1 exDB9)[0]? = some 0 ∧
      cosineSim (fun x => x) [1] (List.replicate 1 0) = 0 :=
  claim_c9_zero_vector_channelA (fun x => x) [1] 1 exDB9 0
    { author := "a", paper := "p", best_text_embedding := none,
      full_text_embedding := some [1] } rfl rfl

/-! Length and permutation lemmas for the two insertion sorts. -/

theorem length_insertByMaxDesc (r : AuthorScore) (l : List AuthorScore) :
    (insertByMaxDesc r l).length = l.length + 1 := by
  induction l with
  | nil => rfl
  | cons s rest ih =>
    simp only [insertByMaxDesc]
    split <;> simp [ih]

theorem length_sortByMaxDesc (l : List AuthorScore) :
    (sortByMaxDesc l).length = l.length := by
  induction l with
  | nil => rfl
  | cons r rest ih => simp [sortByMaxDesc, length_insertByMaxDesc, ih]

theorem insertByMaxDesc_perm (r : AuthorScore) (l : List AuthorScore) :
    (insertByMaxDesc r l).Perm (r :: l) := by
  induction l with
  | nil => exact List.Perm.refl _
  | cons s rest ih =>
    simp only [insertByMaxDesc]
    split
    · exact (ih.cons s).trans (List.Perm.swap r s rest)
    · exact List.Perm.refl _

theorem sortByMaxDesc_perm (l : List AuthorScore) : (sortByMaxDesc l).Perm l := by
  induction l with
  | nil => exact List.Perm.refl _
  | cons r rest ih =>
    exact (insertByMaxDesc_perm r (sortByMaxDesc rest)).trans (ih.cons r)

theorem length_insertAsc (a : String) (l : List String) :
    (insertAsc a l).length = l.length + 1 := by
  induction l with
  | nil => rfl
  | cons b rest ih =>
    simp only [insertAsc]
    split <;> simp [ih]

theorem length_sortAsc (l : List String) : (sortAsc l).length = l.length := by
  induction l with
  | nil => rfl
  | cons a rest ih => simp [sortAsc, length_insertAsc, ih]

theorem insertAsc_perm (a : String) (l : List String) : (insertAsc a l).Perm (a :: l) := by
  induction l with
  | nil => exact List.Perm.refl _
  | cons b rest ih =>
    simp only [insertAsc]
    split
    · exact List.Perm.refl _
    · exact (ih.cons b).trans (List.Perm.swap a b rest)

theorem sortAsc_perm (l : List String) : (sortAsc l).Perm l := by
  induction l with
  | nil => exact List.Perm.refl _
  | cons a rest ih =>
    exact (insertAsc_perm a (sortAsc rest)).trans (ih.cons a)

theorem dedupAuthors_nodup (l : List String) : (dedupAuthors l).Nodup := by
  induction l with
  | nil => exact List.nodup_nil
  | cons a rest ih =>
    simp only [dedupAuthors]
    split
    · exact ih
    · exact List.nodup_cons.mpr ⟨by assumption, ih⟩

theorem mem_dedupAuthors (x : String) (l : List String) :
    x ∈ dedupAuthors l ↔ x ∈ l := by
  induction l with
  | nil => simp [dedupAuthors]
  | cons a rest ih =>
    simp only [dedupAuthors]
    split
    · rename_i hmem
      rw [ih]
      constructor
      · exact fun h => List.mem_cons_of_mem a h
      · intro h
        rcases List.mem_cons.mp h with rfl | h
        · exact ih.mp hmem
        · exact h
    · constructor
      · intro h
        rcases List.mem_cons.mp h with rfl | h
        · exact List.mem_cons_self x rest
        · exact List.mem_cons_of_mem a (ih.mp h)
      · intro h
        rcases List.mem_cons.mp h with rfl | h
        · exact List.mem_cons_self x _
        · exact List.mem_cons_of_mem a (ih.mpr h)

theorem length_authorTable (sq : ℚ → ℚ) (qb qf : List ℚ) (dim : Nat)
    (db : List DBRecord) :
    (authorTable sq qb qf dim db).length = (distinctAuthors db).length := by
  simp [authorTable]

theorem length_sortedTable (sq : ℚ → ℚ) (qb qf : List ℚ) (dim : Nat)
    (db : List DBRecord) :
    (sortedTable sq qb qf dim db).length = (distinctAuthors db).length := by
  rw [sortedTable, length_sortByMaxDesc, length_authorTable]

/-! Claim C2 (corrected). -/

/-- C2 fails as stated: on a non-empty two-author database, `top_k = -1`
does not return an empty result — pandas `head(-1)` keeps all but the last
row. -/
theorem claim_c2_counterexample :
    find_similar_authors (fun x => x) [1] [1] 1 exDB2 (-1) ≠ [] := by
  have hd : dedupAuthors (exDB2.map DBRecord.author) = ["alice", "bob"] := by decide
  have hlen : (distinctAuthors exDB2).length = 2 := by
    rw [distinctAuthors, length_sortAsc, hd]
    rfl
  have hst : (sortedTable (fun x => x) [1] [1] 1 exDB2).length = 2 := by
    rw [length_sortedTable, hlen]
  have hres : (find_similar_authors (fun x => x) [1] [1] 1 exDB2 (-1)).length = 1 := by
    rw [find_similar_authors, dfHead]
    norm_num [hst]
  intro h
  rw [h] at hres
  simp at hres

/-- C2 amended: with `top_k ≤ 0` the result is empty exactly when
`top_k = 0`, or when `top_k` is negative and its absolute value is at
least the number of distinct authors; a negative `top_k` otherwise
returns all but the last `|top_k|` ranked rows (pandas `head`
semantics). -/
theorem claim_c2_amended (sq : ℚ → ℚ) (qb qf : List ℚ) (dim : Nat) (db : List DBRecord)
    (k : Int) (hk : k ≤ 0) :
    find_similar_authors sq qb qf dim db k = [] ↔
      k = 0 ∨ (distinctAuthors db).length ≤ k.natAbs := by
  rcases eq_or_lt_of_le hk with rfl | hneg
  · simp [find_similar_authors, dfHead]
  · rw [find_similar_authors, dfHead, if_neg (by omega)]
    rw [List.take_eq_nil_iff]
    have hlen := length_sortedTable sq qb qf dim db
    constructor
    · rintro (h | h)
      · right; omega
      · right
        rw [h] at hlen
        simp at hlen
        omega
    · rintro (rfl | h)
      · omega
      · left; omega

/-- Witness for the amended C2 at a concrete input. -/
theorem claim_c2_amended_witness :
    find_similar_authors (fun x => x) [1] [1] 1 exDB4 (-5) = [] ↔
      (-5 : Int) = 0 ∨ (distinctAuthors exDB4).length ≤ (-5 : Int).natAbs :=
  claim_c2_amended (fun x => x) [1] [1] 1 exDB4 (-5) (by decide)

/-! Claim C7. -/

theorem length_filter_map_eq {α β : Type} (f : α → β) (q : β → Bool) (l : List α) :
    ((l.map f).filter q).length = (l.filter (fun x => q (f x))).length := by
  induction l with
  | nil => rfl
  | cons x xs ih =>
    simp only [List.map_cons, List.filter_cons]
    cases hq : q (f x) <;> simp [hq, ih]

/-- C7: the Corpus Builder appends exactly one PaperRecord per enumerated
paper — so the per-author record count equals the per-author paper count —
and a paper whose text extraction failed is still recorded, with both
embeddings absent. -/
theorem claim_c7_one_record_per_paper (embed : List Char → List ℚ)
    (papers : List PaperSource) (a : String) :
    (build_multivector_database embed papers).length = papers.length ∧
    ((build_multivector_database embed papers).filter
        (fun r => r.author == a)).length =
      (papers.filter (fun p => p.author == a)).length ∧
    (∀ p ∈ papers, p.raw = none →
      processPaper embed p ∈ build_multivector_database embed papers ∧
      (processPaper embed p).best_text_embedding = none ∧
      (processPaper embed p).full_text_embedding = none) := by
  refine ⟨by simp [build_multivector_database], ?_, ?_⟩
  · rw [build_multivector_database, length_filter_map_eq]
    rfl
  · intro p hp hraw
    refine ⟨List.mem_map_of_mem (processPaper embed) hp, ?_, ?_⟩ <;>
      simp [processPaper, extract_multivector_text, hraw, truthy]

/-- Witness for C7: a one-paper corpus whose only paper fails extraction. -/
theorem claim_c7_witness :
    processPaper (fun _ => [1]) { author := "a", paper := "p", raw := none } ∈
      build_multivector_database (fun _ => [1])
        [{ author := "a", paper := "p", raw := none }] ∧
    (processPaper (fun _ => [1])
        { author := "a", paper := "p", raw := none }).best_text_embedding = none ∧
    (processPaper (fun _ => [1])
        { author := "a", paper := "p", raw := none }).full_text_embedding = none :=
  (claim_c7_one_record_per_paper (fun _ => [1])
      [{ author := "a", paper := "p", raw := none }] "a").2.2
    { author := "a", paper := "p", raw := none } (List.mem_singleton.mpr rfl) rfl

/-! Claim C3 (corrected). -/

/-- C3 fails as stated: for this source document the extracted raw text is
non-empty (not whitespace-only), yet the built PaperRecord has neither a
focused nor a full embedding. -/
theorem claim_c3_counterexample :
    badRaw.all isSpaceChar = false ∧
    (processPaper (fun _ => [1])
        { author := "a", paper := "p", raw := some badRaw }).best_text_embedding = none ∧
    (processPaper (fun _ => [1])
        { author := "a", paper := "p", raw := some badRaw }).full_text_embedding = none := by
  refine ⟨by decide, by decide, by decide⟩

/-- C3 amended: if the raw text is not whitespace-only AND the
bibliography-truncated full excerpt is non-empty, then the PaperRecord has
at least one embedding present (namely the full one). -/
theorem claim_c3_amended (embed : List Char → List ℚ) (author paper : String)
    (ft : List Char) (h1 : ft.all isSpaceChar = false) (h2 : clean_full_text ft ≠ []) :
    (processPaper embed
        { author := author, paper := paper, raw := some ft }).best_text_embedding ≠ none ∨
    (processPaper embed
        { author := author, paper := paper, raw := some ft }).full_text_embedding ≠ none := by
  right
  simp only [processPaper, extract_multivector_text, h1]
  simp [truthy, List.isEmpty_iff, h2]

/-- Witness for the amended C3 on a short plain text. -/
theorem claim_c3_amended_witness :
    (processPaper (fun _ => [1])
        { author := "a", paper := "p",
          raw := some ("hello world".data) }).best_text_embedding ≠ none ∨
    (processPaper (fun _ => [1])
        { author := "a", paper := "p",
          raw := some ("hello world".data) }).full_text_embedding ≠ none :=
  claim_c3_amended (fun _ => [1]) "a" "p" ("hello world".data) (by decide) (by decide)

/-! Sortedness of the author table and per-group score facts. -/

theorem pairwise_insertByMaxDesc (r : AuthorScore) (l : List AuthorScore)
    (h : List.Pairwise (fun r s : AuthorScore => s.max ≤ r.max) l) :
    List.Pairwise (fun r s : AuthorScore => s.max ≤ r.max) (insertByMaxDesc r l) := by
  induction l with
  | nil => simp [insertByMaxDesc]
  | cons s rest ih =>
    rcases List.pairwise_cons.mp h with ⟨hs, hrest⟩
    simp only [insertByMaxDesc]
    split
    · rename_i hc
      refine List.pairwise_cons.mpr ⟨?_, ih hrest⟩
      intro x hx
      rcases List.mem_cons.mp ((insertByMaxDesc_perm r rest).mem_iff.mp hx) with rfl | hxr
      · exact hc
      · exact hs x hxr
    · rename_i hc
      refine List.pairwise_cons.mpr ⟨?_, h⟩
      intro x hx
      rcases List.mem_cons.mp hx with rfl | hxr
      · exact le_of_not_le hc
      · exact le_trans (hs x hxr) (le_of_not_le hc)

theorem pairwise_sortByMaxDesc (l : List AuthorScore) :
    List.Pairwise (fun r s : AuthorScore => s.max ≤ r.max) (sortByMaxDesc l) := by
  induction l with
  | nil => exact List.Pairwise.nil
  | cons r rest ih => exact pairwise_insertByMaxDesc r (sortByMaxDesc rest) ih

theorem sum_le_length_mul_max (l : List ℚ) (m : ℚ) (h : listMax? l = some m) :
    l.sum ≤ (l.length : ℚ) * m := by
  induction l generalizing m with
  | nil => simp [listMax?] at h
  | cons x xs ih =>
    simp only [listMax?] at h
    cases hx : listMax? xs with
    | none =>
      rw [hx] at h
      simp at h
      rw [(listMax?_eq_none_iff xs).mp hx]
      simp [h]
    | some m' =>
      rw [hx] at h
      simp at h
      subst h
      have h2 : xs.sum ≤ (xs.length : ℚ) * max x m' :=
        le_trans (ih m' hx)
          (mul_le_mul_of_nonneg_left (le_max_right x m') (by positivity))
      have h3 : x ≤ max x m' := le_max_left x m'
      have h4 : ((xs.length : ℚ) + 1) * max x m' = (xs.length : ℚ) * max x m' + max x m' := by
        ring
      simp only [List.sum_cons, List.length_cons]
      push_cast
      linarith

theorem groupScores_ne_nil (sq : ℚ → ℚ) (qb qf : List ℚ) (dim : Nat) (db : List DBRecord)
    (a : String) (ha : a ∈ db.map DBRecord.author) :
    groupScores a (scoreRows sq qb qf dim db) ≠ [] := by
  rcases List.mem_map.mp ha with ⟨r, hr, hra⟩
  have hmem :
      (r.author, max (cosineSim sq qb (rowBest dim r)) (cosineSim sq qf (rowFull dim r))) ∈
        scoreRows sq qb qf dim db := by
    rw [scoreRows_eq_map]
    exact List.mem_map_of_mem _ hr
  have hfil :
      (r.author, max (cosineSim sq qb (rowBest dim r)) (cosineSim sq qf (rowFull dim r))) ∈
        (scoreRows sq qb qf dim db).filter (fun x => x.1 == a) :=
    List.mem_filter.mpr ⟨hmem, by simp [hra]⟩
  exact List.ne_nil_of_mem (List.mem_map_of_mem (fun x => x.2) hfil)

theorem mem_distinctAuthors (db : List DBRecord) (a : String)
    (h : a ∈ distinctAuthors db) : a ∈ db.map DBRecord.author := by
  rw [distinctAuthors] at h
  exact (mem_dedupAuthors a _).mp ((sortAsc_perm _).mem_iff.mp h)

/-! Claim C10. -/

/-- C10: every row of the table returned by `find_similar_authors` has
`max ≥ mean` and `count ≥ 1`, because each row aggregates the non-empty
multiset of that author's fused per-paper scores. -/
theorem claim_c10_row_bounds (sq : ℚ → ℚ) (qb qf : List ℚ) (dim : Nat)
    (db : List DBRecord) (k : Int) (r : AuthorScore)
    (hr : r ∈ find_similar_authors sq qb qf dim db k) :
    r.mean ≤ r.max ∧ 1 ≤ r.count := by
  have h1 : r ∈ sortedTable sq qb qf dim db := by
    rw [find_similar_authors, dfHead] at hr
    split at hr
    · exact List.take_subset _ _ hr
    · exact List.take_subset _ _ hr
  rw [sortedTable] at h1
  have h2 : r ∈ authorTable sq qb qf dim db := (sortByMaxDesc_perm _).mem_iff.mp h1
  rw [authorTable] at h2
  rcases List.mem_map.mp h2 with ⟨a, hadist, hrow⟩
  subst hrow
  have hne := groupScores_ne_nil sq qb qf dim db a (mem_distinctAuthors db a hadist)
  cases hmx : listMax? (groupScores a (scoreRows sq qb qf dim db)) with
  | none => exact absurd ((listMax?_eq_none_iff _).mp hmx) hne
  | some m =>
    have hlenpos : 0 < (groupScores a (scoreRows sq qb qf dim db)).length :=
      List.length_pos.mpr hne
    constructor
    · show (groupScores a (scoreRows sq qb qf dim db)).sum /
          ((groupScores a (scoreRows sq qb qf dim db)).length : ℚ) ≤
        listMaxD (groupScores a (scoreRows sq qb qf dim db))
      rw [listMaxD, hmx, Option.getD_some,
        div_le_iff₀ (by exact_mod_cast hlenpos), mul_comm]
      exact sum_le_length_mul_max _ m hmx
    · exact hlenpos

/-- Witness for C10 on the single row returned for a one-record
database. -/
theorem claim_c10_witness :
    (authorRow (scoreRows (fun x => x) [1] [1] 1 exDB10) "carol").mean ≤
      (authorRow (scoreRows (fun x => x) [1] [1] 1 exDB10) "carol").max ∧
    1 ≤ (authorRow (scoreRows (fun x => x) [1] [1] 1 exDB10) "carol").count :=
  claim_c10_row_bounds (fun x => x) [1] [1] 1 exDB10 1
    (authorRow (scoreRows (fun x => x) [1] [1] 1 exDB10) "carol")
    (List.mem_singleton.mpr rfl)

/-! Claim C8 (corrected).  The claim quantifies over every database, but
on the empty database sklearn's `cosine_similarity` raises before any
table is built, so an amended claim restricted to non-empty databases is
proved instead. -/

theorem scoreA_checked_eq (sq : ℚ → ℚ) (qb : List ℚ) (dim : Nat)
    (db : List DBRecord) (hne : db ≠ []) :
    scoreA_checked sq qb dim db = some (scoreA sq qb dim db) := by
  rw [scoreA_checked, cosine_similarity_rows,
    if_neg (by simp [List.isEmpty_iff, hne])]
  rw [List.map_map]
  rfl

theorem scoreB_checked_eq (sq : ℚ → ℚ) (qf : List ℚ) (dim : Nat)
    (db : List DBRecord) (hne : db ≠ []) :
    scoreB_checked sq qf dim db = some (scoreB sq qf dim db) := by
  rw [scoreB_checked, cosine_similarity_rows,
    if_neg (by simp [List.isEmpty_iff, hne])]
  rw [List.map_map]
  rfl

/-- On a non-empty database the checked engine does not raise and returns
exactly the table of the non-raising model. -/
theorem find_similar_authors_checked_eq (sq : ℚ → ℚ) (qb qf : List ℚ) (dim : Nat)
    (db : List DBRecord) (k : Int) (hne : db ≠ []) :
    find_similar_authors_checked sq qb qf dim db k =
      some (find_similar_authors sq qb qf dim db k) := by
  rw [find_similar_authors_checked, scoreA_checked_eq sq qb dim db hne,
    scoreB_checked_eq sq qf dim db hne]
  rfl

/-- C8 fails as stated: over the empty database (a database, with fewer
distinct authors than `top_k = 3`) the program raises inside sklearn
instead of returning the sorted, truncated (here empty) author table. -/
theorem claim_c8_counterexample :
    find_similar_authors_checked (fun x => x) [1] [1] 1 [] 3 ≠
      some ((sortedTable (fun x => x) [1] [1] 1 []).take (3 : Int).toNat) := by
  have h0 : find_similar_authors_checked (fun x => x) [1] [1] 1 [] 3 = none := rfl
  rw [h0]
  simp

/-- C8 amended: for every NON-EMPTY database and positive `top_k`, the
engine returns (without raising) the per-author table sorted descending
by the `max` column and truncated to the first `top_k` rows; its length
is `min top_k (number of distinct authors)`, and when there are at most
`top_k` distinct authors it has exactly one row per distinct author of
the database — no padding. -/
theorem claim_c8_amended (sq : ℚ → ℚ) (qb qf : List ℚ) (dim : Nat)
    (db : List DBRecord) (hne : db ≠ []) (k : Int) (hk : 0 < k) :
    find_similar_authors_checked sq qb qf dim db k =
      some ((sortedTable sq qb qf dim db).take k.toNat) ∧
    List.Sorted (fun r s : AuthorScore => s.max ≤ r.max)
      ((sortedTable sq qb qf dim db).take k.toNat) ∧
    ((sortedTable sq qb qf dim db).take k.toNat).length =
      min k.toNat (distinctAuthors db).length ∧
    ((distinctAuthors db).length ≤ k.toNat →
      (((sortedTable sq qb qf dim db).take k.toNat).map AuthorScore.author).Nodup ∧
      ∀ a : String,
        a ∈ ((sortedTable sq qb qf dim db).take k.toNat).map AuthorScore.author ↔
          a ∈ db.map DBRecord.author) := by
  have h0 : find_similar_authors sq qb qf dim db k =
      (sortedTable sq qb qf dim db).take k.toNat := by
    rw [find_similar_authors, dfHead, if_pos hk.le]
  refine ⟨by rw [find_similar_authors_checked_eq sq qb qf dim db k hne, h0], ?_, ?_, ?_⟩
  · rw [sortedTable]
    exact List.Pairwise.sublist (List.take_sublist _ _) (pairwise_sortByMaxDesc _)
  · rw [List.length_take, length_sortedTable]
  · intro hle
    have htake : (sortedTable sq qb qf dim db).take k.toNat =
        sortedTable sq qb qf dim db :=
      List.take_of_length_le (by rw [length_sortedTable]; exact hle)
    rw [htake]
    have hperm : ((sortedTable sq qb qf dim db).map AuthorScore.author).Perm
        ((authorTable sq qb qf dim db).map AuthorScore.author) := by
      rw [sortedTable]
      exact (sortByMaxDesc_perm _).map _
    have hmapeq : (authorTable sq qb qf dim db).map AuthorScore.author =
        distinctAuthors db := by
      rw [authorTable, List.map_map]
      have hcomp : (AuthorScore.author ∘ authorRow (scoreRows sq qb qf dim db)) = id := by
        funext a
        rfl
      rw [hcomp, List.map_id]
    constructor
    · rw [hperm.nodup_iff, hmapeq, distinctAuthors]
      exact ((sortAsc_perm _).nodup_iff).mpr (dedupAuthors_nodup _)
    · intro a
      rw [hperm.mem_iff, hmapeq]
      constructor
      · exact mem_distinctAuthors db a
      · intro h
        rw [distinctAuthors, (sortAsc_perm _).mem_iff, mem_dedupAuthors]
        exact h

/-- Witness for the amended C8 at `top_k = 3` over a concrete non-empty
two-author database. -/
theorem claim_c8_amended_witness :
    find_similar_authors_checked (fun x => x) [1] [1] 1 exDB2 3 =
      some ((sortedTable (fun x => x) [1] [1] 1 exDB2).take (3 : Int).toNat) ∧
    List.Sorted (fun r s : AuthorScore => s.max ≤ r.max)
      ((sortedTable (fun x => x) [1] [1] 1 exDB2).take (3 : Int).toNat) ∧
    ((sortedTable (fun x => x) [1] [1] 1 exDB2).take (3 : Int).toNat).length =
      min (3 : Int).toNat (distinctAuthors exDB2).length ∧
    ((distinctAuthors exDB2).length ≤ (3 : Int).toNat →
      (((sortedTable (fun x => x) [1] [1] 1 exDB2).take (3 : Int).toNat).map
          AuthorScore.author).Nodup ∧
      ∀ a : String,
        a ∈ ((sortedTable (fun x => x) [1] [1] 1 exDB2).take (3 : Int).toNat).map
            AuthorScore.author ↔
          a ∈ exDB2.map DBRecord.author) :=
  claim_c8_amended (fun x => x) [1] [1] 1 exDB2 (by decide) 3 (by decide)

/-! Characterisation of `rfind` and the heading positions for C5. -/

theorem occursB_false_of_le (c : Char) (ps text : List Char) (i : Nat)
    (h : text.length ≤ i) : occursB (c :: ps) text i = false := by
  rw [occursB, List.drop_eq_nil_of_le h]
  rfl

theorem rfind_eq_neg_one_iff (c : Char) (ps text : List Char) :
    rfind (c :: ps) text = -1 ↔ ∀ i, occursB (c :: ps) text i = false := by
  rw [rfind]
  cases hmx : listMax? ((List.range (text.length + 1)).filter (occursB (c :: ps) text)) with
  | some j =>
    simp only
    constructor
    · intro h
      exfalso
      omega
    · intro hall
      exfalso
      have hj := listMax?_mem _ _ hmx
      rw [List.mem_filter, hall j] at hj
      exact absurd hj.2 (by simp)
  | none =>
    have hempty := (listMax?_eq_none_iff _).mp hmx
    simp only
    constructor
    · intro _ i
      by_cases hi : i < text.length + 1
      · by_contra hocc
        rw [Bool.not_eq_false] at hocc
        have hin : i ∈ (List.range (text.length + 1)).filter (occursB (c :: ps) text) :=
          List.mem_filter.mpr ⟨List.mem_range.mpr hi, hocc⟩
        rw [hempty] at hin
        exact absurd hin (List.not_mem_nil i)
      · exact occursB_false_of_le c ps text i (by omega)
    · intro _
      trivial

theorem rfind_nonneg_spec (c : Char) (ps text : List Char)
    (h : 0 ≤ rfind (c :: ps) text) :
    occursB (c :: ps) text (rfind (c :: ps) text).toNat = true ∧
    ∀ i, occursB (c :: ps) text i = true → i ≤ (rfind (c :: ps) text).toNat := by
  cases hmx : listMax? ((List.range (text.length + 1)).filter (occursB (c :: ps) text)) with
  | none =>
    have hr : rfind (c :: ps) text = -1 := by rw [rfind, hmx]
    rw [hr] at h
    omega
  | some j =>
    have hr : rfind (c :: ps) text = (j : Int) := by rw [rfind, hmx]
    rw [hr]
    have hj := listMax?_mem _ _ hmx
    have hmax := listMax?_is_max _ _ hmx
    rw [List.mem_filter] at hj
    constructor
    · rw [Int.toNat_natCast]
      exact hj.2
    · intro i hocc
      have hilt : i < text.length + 1 := by
        by_contra hge
        rw [occursB_false_of_le c ps text i (by omega)] at hocc
        exact absurd hocc (by simp)
      have hle := hmax i (List.mem_filter.mpr ⟨List.mem_range.mpr hilt, hocc⟩)
      rw [Int.toNat_natCast]
      exact hle

theorem le_rfind (c : Char) (ps text : List Char) (i : Nat)
    (hocc : occursB (c :: ps) text i = true) : (i : Int) ≤ rfind (c :: ps) text := by
  have hilt : i < text.length + 1 := by
    by_contra hge
    rw [occursB_false_of_le c ps text i (by omega)] at hocc
    exact absurd hocc (by simp)
  cases hmx : listMax? ((List.range (text.length + 1)).filter (occursB (c :: ps) text)) with
  | none =>
    exfalso
    have hempty := (listMax?_eq_none_iff _).mp hmx
    have hin : i ∈ (List.range (text.length + 1)).filter (occursB (c :: ps) text) :=
      List.mem_filter.mpr ⟨List.mem_range.mpr hilt, hocc⟩
    rw [hempty] at hin
    exact absurd hin (List.not_mem_nil i)
  | some j =>
    have hr : rfind (c :: ps) text = (j : Int) := by rw [rfind, hmx]
    rw [hr]
    exact_mod_cast listMax?_is_max _ _ hmx i
      (List.mem_filter.mpr ⟨List.mem_range.mpr hilt, hocc⟩)

theorem headingAt_lt_length (text : List Char) (q : Nat)
    (h : headingAt text q = true) : q < text.length := by
  by_contra hge
  push_neg at hge
  have hlen : (text.map Char.toLower).length ≤ q := by simpa using hge
  rw [headingAt, occursB, occursB, List.drop_eq_nil_of_le hlen] at h
  have hfalse :
      (("\nreferences".data).isPrefixOf ([] : List Char) ||
        ("\nbibliography".data).isPrefixOf ([] : List Char)) = false := by decide
  rw [hfalse] at h
  exact absurd h (by simp)

/-! Claim C5 (corrected).  The code anchors a heading with a literal
newline (`rfind('\nreferences')`), so a heading on the very first line
of the text, at position 0, is never found and nothing is truncated —
while the claim, which speaks of every line-initial heading, demands
truncation there.  The amended claim restricts to newline-preceded
headings. -/

/-- C5 fails as stated: this raw text carries a case-insensitive
references heading at its line-initial position 0, so the claim demands
the full excerpt be the text truncated there (the empty prefix), yet
`clean_full_text` finds no `"\nreferences"` occurrence and returns the
whole text, heading and reference list included. -/
theorem claim_c5_counterexample :
    ("references".data).isPrefixOf
      (("references\n[1] x".data).map Char.toLower) = true ∧
    clean_full_text ("references\n[1] x".data) = "references\n[1] x".data ∧
    clean_full_text ("references\n[1] x".data) ≠
      ("references\n[1] x".data).take 0 := by
  refine ⟨by decide, by decide, by decide⟩

/-- C5 amended: restricted to newline-anchored headings, as the code
implements them.  If a newline-preceded case-insensitive references or
bibliography heading occurs, and `p` is the last position at which one
occurs, then the full excerpt is the raw text truncated at `p` (the
heading and everything after it excluded) and is a prefix of the raw
text; with no newline-preceded heading — even when a heading opens the
text at position 0 — the full excerpt is the whole text unmodified. -/
theorem claim_c5_full_excerpt (text : List Char) :
    (∀ p, headingAt text p = true →
      (∀ q, headingAt text q = true → q ≤ p) →
      clean_full_text text = text.take p ∧ clean_full_text text <+: text) ∧
    ((∀ q, headingAt text q = false) → clean_full_text text = text) := by
  constructor
  · intro p hp hmax
    have hple : (p : Int) ≤
        max (rfind ("\nreferences".data) (text.map Char.toLower))
          (rfind ("\nbibliography".data) (text.map Char.toLower)) := by
      rw [headingAt] at hp
      rcases Bool.or_eq_true_iff.mp hp with h | h
      · exact le_trans (le_rfind '\n' ("references".data) (text.map Char.toLower) p h)
          (le_max_left _ _)
      · exact le_trans (le_rfind '\n' ("bibliography".data) (text.map Char.toLower) p h)
          (le_max_right _ _)
    have hp0 : (0 : Int) ≤
        max (rfind ("\nreferences".data) (text.map Char.toLower))
          (rfind ("\nbibliography".data) (text.map Char.toLower)) :=
      le_trans (Int.natCast_nonneg p) hple
    have hsle :
        max (rfind ("\nreferences".data) (text.map Char.toLower))
          (rfind ("\nbibliography".data) (text.map Char.toLower)) ≤ (p : Int) := by
      rcases max_choice (rfind ("\nreferences".data) (text.map Char.toLower))
          (rfind ("\nbibliography".data) (text.map Char.toLower)) with hc | hc
      · rw [hc] at hp0 ⊢
        obtain ⟨hocc, -⟩ :=
          rfind_nonneg_spec '\n' ("references".data) (text.map Char.toLower) hp0
        have hh : headingAt text
            (rfind ("\nreferences".data) (text.map Char.toLower)).toNat = true := by
          rw [headingAt]
          exact Bool.or_eq_true_iff.mpr (Or.inl hocc)
        have hle := hmax _ hh
        omega
      · rw [hc] at hp0 ⊢
        obtain ⟨hocc, -⟩ :=
          rfind_nonneg_spec '\n' ("bibliography".data) (text.map Char.toLower) hp0
        have hh : headingAt text
            (rfind ("\nbibliography".data) (text.map Char.toLower)).toNat = true := by
          rw [headingAt]
          exact Bool.or_eq_true_iff.mpr (Or.inr hocc)
        have hle := hmax _ hh
        omega
    have hpe :
        max (rfind ("\nreferences".data) (text.map Char.toLower))
          (rfind ("\nbibliography".data) (text.map Char.toLower)) = (p : Int) :=
      le_antisymm hsle hple
    have heq : clean_full_text text = text.take p := by
      simp only [clean_full_text]
      rw [if_pos (show
          max (rfind ("\nreferences".data) (text.map Char.toLower))
            (rfind ("\nbibliography".data) (text.map Char.toLower)) ≠ -1 by omega)]
      rw [hpe, Int.toNat_natCast]
    exact ⟨heq, heq ▸ ⟨text.drop p, List.take_append_drop p text⟩⟩
  · intro hq
    have h1 : rfind ("\nreferences".data) (text.map Char.toLower) = -1 := by
      rw [show ("\nreferences".data) = '\n' :: "references".data from rfl]
      refine (rfind_eq_neg_one_iff _ _ _).mpr (fun i => ?_)
      have hqi := hq i
      rw [headingAt] at hqi
      exact (Bool.or_eq_false_iff.mp hqi).1
    have h2 : rfind ("\nbibliography".data) (text.map Char.toLower) = -1 := by
      rw [show ("\nbibliography".data) = '\n' :: "bibliography".data from rfl]
      refine (rfind_eq_neg_one_iff _ _ _).mpr (fun i => ?_)
      have hqi := hq i
      rw [headingAt] at hqi
      exact (Bool.or_eq_false_iff.mp hqi).2
    simp only [clean_full_text, h1, h2]
    rw [max_self]
    rw [if_neg (fun h => h rfl)]

/-- Witness for C5 on a text whose last (and only) heading is the newline
at index 10. -/
theorem claim_c5_witness :
    clean_full_text wText = wText.take 10 ∧ clean_full_text wText <+: wText :=
  (claim_c5_full_excerpt wText).1 10 (by decide)
    (fun q hq => by
      have hb := headingAt_lt_length wText q hq
      have hdec : ∀ r, r < wText.length → headingAt wText r = true → r ≤ 10 := by decide
      exact hdec q hb hq)

/-! Claim C6. -/

theorem toLower_space (c : Char) (h : isSpaceChar c = true) : Char.toLower c = c := by
  rw [isSpaceChar] at h
  simp only [Bool.or_eq_true, beq_iff_eq] at h
  rcases h with ((((h | h) | h) | h) | h) | h <;> subst h <;> decide

theorem isSpaceChar_toLower (c : Char) (h : isSpaceChar c = true) :
    isSpaceChar (Char.toLower c) = true := by
  rw [toLower_space c h]
  exact h

theorem no_prefix_of_head_not_mem (d : Char) (ds l : List Char) (hd : d ∉ l) (i : Nat) :
    (d :: ds).isPrefixOf (l.drop i) = false := by
  cases hdrop : l.drop i with
  | nil => rfl
  | cons c rest =>
    have hc : c ∈ l := List.drop_subset i l (hdrop ▸ List.mem_cons_self c rest)
    have hne : (d == c) = false := by
      by_contra hbe
      rw [Bool.not_eq_false, beq_iff_eq] at hbe
      exact hd (hbe ▸ hc)
    simp [List.isPrefixOf, hne]

theorem space_head_not_mem_lower (ft : List Char) (hall : ft.all isSpaceChar = true)
    (d : Char) (hd : isSpaceChar d = false) : d ∉ ft.map Char.toLower := by
  intro hmem
  rcases List.mem_map.mp hmem with ⟨c0, hc0, hc0l⟩
  have hcs : isSpaceChar d = true :=
    hc0l ▸ isSpaceChar_toLower c0 (List.all_eq_true.mp hall c0 hc0)
  rw [hcs] at hd
  exact absurd hd (by simp)

theorem searchAbstract_none_of_allSpace (ft : List Char)
    (hall : ft.all isSpaceChar = true) : searchAbstract (ft.map Char.toLower) = none := by
  rw [searchAbstract, findFirst]
  refine List.find?_eq_none.mpr (fun i _ => ?_)
  rw [abstractAt]
  rw [show ("abstract".data) = 'a' :: "bstract".data from rfl]
  rw [no_prefix_of_head_not_mem 'a' ("bstract".data) (ft.map Char.toLower)
    (space_head_not_mem_lower ft hall 'a' (by decide)) i]
  simp

theorem searchIntro_none_of_allSpace (ft : List Char)
    (hall : ft.all isSpaceChar = true) :
    searchPats ["introduction".data] (ft.map Char.toLower) = none := by
  rw [searchPats, findFirst]
  refine List.find?_eq_none.mpr (fun i _ => ?_)
  rw [matchesAny]
  rw [show ("introduction".data) = 'i' :: "ntroduction".data from rfl]
  simp [no_prefix_of_head_not_mem 'i' ("ntroduction".data) (ft.map Char.toLower)
    (space_head_not_mem_lower ft hall 'i' (by decide)) i]

theorem candidate_nil_of_no_matches (ft : List Char)
    (h1 : searchAbstract (ft.map Char.toLower) = none)
    (h2 : searchPats ["introduction".data] (ft.map Char.toLower) = none) :
    best_text_candidate ft = [] := by
  simp only [best_text_candidate, h1, h2]
  rfl

/-- The focused component of segmentation is absent exactly when the
assembled abstract+introduction candidate has fewer than 100 tokens. -/
theorem extract_focused_none_iff (ft : List Char) :
    (extract_multivector_text (some ft)).1 = none ↔
      countTokens (best_text_candidate ft) < 100 := by
  rw [extract_multivector_text]
  by_cases hall : ft.all isSpaceChar
  · rw [if_pos hall]
    have hc := candidate_nil_of_no_matches ft (searchAbstract_none_of_allSpace ft hall)
      (searchIntro_none_of_allSpace ft hall)
    rw [hc]
    simp only
    constructor
    · intro _
      decide
    · intro _
      trivial
  · rw [if_neg hall]
    simp only [extract_best_text]
    by_cases ht : countTokens (best_text_candidate ft) < 100
    · rw [if_pos ht]
      simp [ht]
    · rw [if_neg ht]
      simp [ht]

/-- C6: the focused excerpt is absent exactly when the concatenated
abstract+introduction candidate has fewer than 100 whitespace-delimited
tokens (so a 99-token candidate is absent and a 100-token one present);
in particular, with no abstract and no introduction marker anywhere in the
lower-cased text, the focused excerpt is absent. -/
theorem claim_c6_focused_threshold (ft : List Char) :
    ((extract_multivector_text (some ft)).1 = none ↔
      countTokens (best_text_candidate ft) < 100) ∧
    ((∀ i, ("abstract".data).isPrefixOf ((ft.map Char.toLower).drop i) = false) →
      (∀ i, ("introduction".data).isPrefixOf ((ft.map Char.toLower).drop i) = false) →
      (extract_multivector_text (some ft)).1 = none) := by
  refine ⟨extract_focused_none_iff ft, fun ha hi => ?_⟩
  have h1 : searchAbstract (ft.map Char.toLower) = none := by
    rw [searchAbstract, findFirst]
    refine List.find?_eq_none.mpr (fun j _ => ?_)
    simp [abstractAt, ha j]
  have h2 : searchPats ["introduction".data] (ft.map Char.toLower) = none := by
    rw [searchPats, findFirst]
    refine List.find?_eq_none.mpr (fun j _ => ?_)
    simp [matchesAny, hi j]
  rw [extract_focused_none_iff ft, candidate_nil_of_no_matches ft h1 h2]
  decide

/-- Witness for C6 on a short text with neither marker. -/
theorem claim_c6_witness :
    (extract_multivector_text (some ("xyz qqq".data))).1 = none :=
  (claim_c6_focused_threshold ("xyz qqq".data)).2
    (fun i => no_prefix_of_head_not_mem 'a' ("bstract".data)
      ("xyz qqq".data.map Char.toLower) (by decide) i)
    (fun i => no_prefix_of_head_not_mem 'i' ("ntroduction".data)
      ("xyz qqq".data.map Char.toLower) (by decide) i)
